import Mathlib

/-!
# Chilena microkernel core — verification of the spec's claims

Shallow embedding of the Chilena kernel core (src/src/sys): the CHN
executable-header parser, the process table with create/terminate, the
round-robin scheduler tick, the one-slot IPC mailbox send/recv, and the
ChilenaFS on-disk filesystem write/read path.

Bytes are modelled as `Nat` (values < 256 where it matters), machine
integers as `Nat` with explicit `% 2^w` at the points the Rust code
performs a narrowing cast or a wrapping operation.
-/

namespace Chilena

/-! ## CHN executable header (src/src/sys/process.rs, `ChnHeader::parse`)

`chnParseLog` also returns the list of diagnostic messages the code emits
via `kwarn!` on each rejection path, so that "every rejection produces a
diagnostic" is statable. -/

/-- CHN header magic: 0x7F 'C' 'H' 'N'. -/
def CHN_MAGIC : List Nat := [0x7F, 0x43, 0x48, 0x4E]

def CHN_HEADER_SIZE : Nat := 32

structure ChnHeader where
  version      : Nat
  flags        : Nat
  entry_offset : Nat
  code_size    : Nat
  data_size    : Nat
  stack_size   : Nat
  min_memory   : Nat
  target_arch  : Nat
  os_version   : Nat
  checksum     : Nat
  deriving DecidableEq, Repr

/-- Little-endian read of 2 bytes at offset `o`. -/
def le16 (bin : List Nat) (o : Nat) : Nat :=
  bin.getD o 0 + 256 * bin.getD (o+1) 0

/-- Little-endian read of 4 bytes at offset `o`. -/
def le32 (bin : List Nat) (o : Nat) : Nat :=
  bin.getD o 0 + 256 * bin.getD (o+1) 0 + 65536 * bin.getD (o+2) 0
    + 16777216 * bin.getD (o+3) 0

/-- XOR fold of the first 31 bytes (`bin[..31].iter().fold(0, |acc, b| acc ^ b)`). -/
def chnChecksum (bin : List Nat) : Nat :=
  (bin.take 31).foldl (fun acc b => acc ^^^ b) 0

/-- `ChnHeader::parse`, instrumented with the list of `kwarn!` diagnostics
emitted.  Returns `none` exactly on the code's rejection paths, in source
order: length, magic, checksum, target arch, total size. -/
def chnParseLog (bin : List Nat) : Option ChnHeader × List String :=
  if bin.length < CHN_HEADER_SIZE then (none, [])
  else if bin.take 4 ≠ CHN_MAGIC then (none, [])
  else if chnChecksum bin ≠ bin.getD 31 0 then (none, ["CHN: checksum mismatch"])
  else
    let target_arch := le16 bin 28
    if target_arch ≠ 0x01 then (none, ["CHN: unsupported arch"])
    else
      let code_size := le32 bin 12
      let data_size := le32 bin 16
      if bin.length < CHN_HEADER_SIZE + code_size + data_size then
        (none, ["CHN: binary too small"])
      else
        (some { version      := le16 bin 4
                flags        := le16 bin 6
                entry_offset := le32 bin 8
                code_size    := code_size
                data_size    := data_size
                stack_size   := le32 bin 20
                min_memory   := le32 bin 24
                target_arch  := target_arch
                os_version   := bin.getD 30 0
                checksum     := bin.getD 31 0 }, [])

/-- `ChnHeader::parse` proper (the header value, ignoring diagnostics). -/
def chnParse (bin : List Nat) : Option ChnHeader := (chnParseLog bin).1

/-! ## Process table, IPC and scheduler state
(src/src/sys/process.rs, src/src/sys/ipc/mod.rs, src/src/sys/sched.rs)

The kernel's global state is modelled as one record: the fixed 8-entry
process table, the `CURRENT_PID` / `NEXT_PID` / `ACTIVE_PROCS` atomics,
the CR3 register, the scheduler tick, and two counters instrumenting the
frame allocator (`allocate_frame` / `deallocate_frame` calls).  `usize` /
`u64` atomics wrap at `2^64` (`fetch_add` / `fetch_sub` semantics). -/

def MAX_PROCS : Nat := 8
def MAX_PROC_MEM : Nat := 10 * 1048576  -- 10 << 20
def USER_BASE : Nat := 0x00800000
def W64 : Nat := 2 ^ 64
/-- `usize::MAX`, the IPC error return value. -/
def USIZE_MAX : Nat := 2 ^ 64 - 1

def MSG_PAYLOAD : Nat := 64

/-- IPC message (src/src/sys/ipc/mod.rs). -/
structure Message where
  sender : Nat
  kind   : Nat
  data   : List Nat
  deriving DecidableEq, Repr

/-- Process block state (src/src/sys/ipc/mod.rs). -/
inductive BlockState where
  | Running
  | WaitingSend (target : Nat)
  | WaitingRecv
  deriving DecidableEq, Repr

/-- One process-table entry (the fields of `Process` the core's control
flow reads or writes; `stack_frame` is tracked by its presence, which is
what the scheduler's dispatch path branches on). -/
structure Proc where
  id          : Nat
  parent_id   : Nat
  code_base   : Nat
  stack_base  : Nat
  entry_point : Nat
  ptFrame     : Nat
  hasStackFrame : Bool
  mailbox     : Option Message
  block       : BlockState
  deriving DecidableEq, Repr

/-- `Process::new()` — a free entry; `pt_frame` is the CR3 value read at
construction time. -/
def Proc.new (cr3 : Nat) : Proc :=
  { id := 0, parent_id := 0, code_base := 0, stack_base := 0,
    entry_point := 0, ptFrame := cr3, hasStackFrame := false,
    mailbox := none, block := .Running }

/-- Kernel global state. -/
structure KState where
  table       : List Proc
  currentPid  : Nat
  nextPid     : Nat
  activeProcs : Nat
  tick        : Nat
  cr3         : Nat
  /-- number of `allocate_frame` calls made so far (also used as the next
  fresh frame number) -/
  framesAllocated : Nat
  /-- number of `deallocate_frame` calls made so far -/
  framesFreed : Nat
  deriving DecidableEq, Repr

def getProc (st : KState) (i : Nat) : Proc := st.table.getD i (Proc.new 0)

def setProc (st : KState) (i : Nat) (p : Proc) : KState :=
  { st with table := st.table.set i p }

def setBlock (st : KState) (i : Nat) (b : BlockState) : KState :=
  setProc st i { getProc st i with block := b }

def setPid (st : KState) (pid : Nat) : KState := { st with currentPid := pid }

/-- Kernel state after boot: all 8 slots free, kernel is PID 0,
`NEXT_PID` starts at 1. -/
def initState : KState :=
  { table := List.replicate MAX_PROCS (Proc.new 0),
    currentPid := 0, nextPid := 1, activeProcs := 0, tick := 0,
    cr3 := 0, framesAllocated := 0, framesFreed := 0 }

/-! ### Process creation and termination (src/src/sys/process.rs) -/

/-- `find_free_slot` — first PID in `1..MAX_PROCS` whose entry has `id == 0`. -/
def find_free_slot (st : KState) : Option Nat :=
  (List.range' 1 (MAX_PROCS - 1)).find? (fun i => (getProc st i).id == 0)

/-- `find_free_code_base` — lowest of the `MAX_PROCS - 1` fixed windows
`USER_BASE + slot * MAX_PROC_MEM` not claimed by any live entry. -/
def find_free_code_base (st : KState) : Option Nat :=
  ((List.range (MAX_PROCS - 1)).map (fun slot => USER_BASE + slot * MAX_PROC_MEM)).find?
    (fun c => !((List.range' 1 (MAX_PROCS - 1)).any
      (fun i => (getProc st i).id != 0 && (getProc st i).code_base == c)))

/-- `Process::create(bin)` — validates and loads a CHN image into a fresh
slot.  Mirrors the source's order of effects: the page-table frame is
allocated BEFORE the header is parsed, and the error paths return with
that allocation already done. -/
def create (st : KState) (bin : List Nat) : Except Unit Nat × KState :=
  match find_free_slot st with
  | none => (.error (), st)
  | some slot =>
    match find_free_code_base st with
    | none => (.error (), st)
    | some code_base =>
      -- allocate frame for the new process page table
      let ptFrame := st.framesAllocated
      let st1 := { st with framesAllocated := st.framesAllocated + 1 }
      let stack_base := code_base + MAX_PROC_MEM - 4096
      match chnParse bin with
      | none => (.error (), st1)
      | some hdr =>
        -- stack_sz = if stack_size == 0 { 65536 } else { stack_size }
        if hdr.code_size + hdr.data_size
            + (if hdr.stack_size = 0 then 65536 else hdr.stack_size)
            > MAX_PROC_MEM then
          (.error (), st1)
        else
          let parent := getProc st1 st1.currentPid
          let p : Proc :=
            { id := slot, parent_id := parent.id, code_base := code_base,
              stack_base := stack_base, entry_point := hdr.entry_offset,
              ptFrame := ptFrame, hasStackFrame := false,
              mailbox := none, block := .Running }
          let st2 := setProc st1 slot p
          (.ok slot,
           { st2 with nextPid := (st2.nextPid + 1) % W64,
                      activeProcs := (st2.activeProcs + 1) % W64 })

/-- The CR3 switch and `set_pid(self.id)` performed by `Process::exec_raw`
when dropping into the new process. -/
def execSwitch (st : KState) (pid : Nat) : KState :=
  { st with currentPid := pid, cr3 := (getProc st pid).ptFrame }

/-- `terminate()` — reset the caller's slot to `Process::new()`, decrement
`ACTIVE_PROCS` (wrapping `fetch_sub`), restore `CURRENT_PID` to the
parent, deallocate the page-table frame, and switch CR3 to the parent's
page table (read from the table after the slot was cleared). -/
def terminate (st : KState) : KState :=
  let pid := st.currentPid
  let p := getProc st pid
  let parent_id := p.parent_id
  -- release_process_pages: no process-table effect
  let st1 := setProc st pid (Proc.new st.cr3)
  let st2 := { st1 with activeProcs := (st1.activeProcs + (W64 - 1)) % W64,
                        currentPid := parent_id,
                        framesFreed := st1.framesFreed + 1 }
  { st2 with cr3 := (getProc st2 parent_id).ptFrame }

/-! ### Scheduler (src/src/sys/sched.rs, `schedule`) -/

def SCHED_INTERVAL : Nat := 10

/-- What a `schedule` invocation did: whether it returned at one of the
two early-out checks, whether it saved the current process's state, and
which process it switched to (page-table switch included), if any. -/
structure SchedResult where
  early      : Bool
  saved      : Bool
  switchedTo : Option Nat
  deriving DecidableEq, Repr

/-- The candidate scan: first `i` in `1..n_procs` with
`candidate = (cur + i) % n_procs` nonzero and `Running`. -/
def findNext (st : KState) (cur n : Nat) : Option Nat :=
  ((List.range' 1 (n - 1)).map (fun i => (cur + i) % n)).find?
    (fun c => c != 0 && (getProc st c).block == .Running)

/-- Mark the current entry's interrupt frame and registers as saved
(`save_stack_frame` stores `Some frame`). -/
def saveCurrent (st : KState) : KState :=
  setProc st st.currentPid { getProc st st.currentPid with hasStackFrame := true }

/-- `schedule(frame, regs)` — the timer-interrupt scheduler body. -/
def schedule (st : KState) : KState × SchedResult :=
  let t := st.tick
  let st := { st with tick := (st.tick + 1) % W64 }
  if t % SCHED_INTERVAL ≠ 0 then
    (st, { early := true, saved := false, switchedTo := none })
  else
    let n_procs := st.nextPid
    if n_procs ≤ 1 then
      (st, { early := true, saved := false, switchedTo := none })
    else
      let cur := st.currentPid
      let st := saveCurrent st
      match findNext st cur n_procs with
      | none => (st, { early := false, saved := true, switchedTo := none })
      | some next =>
        if next = cur then
          (st, { early := false, saved := true, switchedTo := none })
        else
          ({ st with currentPid := next, cr3 := (getProc st next).ptFrame },
           { early := false, saved := true, switchedTo := some next })

/-! ### IPC (src/src/sys/ipc/mod.rs)

`send`'s blocked yields (`enable_and_hlt`) hand the CPU to the rest of
the system; the environment's effect on the state during the n-th yield
is modelled by a parameter `env : Nat → KState → KState`. -/

/-- The 64-byte payload: `data` truncated to 64 bytes, padded with
trailing zeros. -/
def payload (data : List Nat) : List Nat :=
  data.take MSG_PAYLOAD ++ List.replicate (MSG_PAYLOAD - data.length) 0

/-- The successful-send critical section: deposit the message in the
target's mailbox and mark both participants `Running` (in source order). -/
def deposit (st : KState) (msg : Message) (sender target : Nat) : KState :=
  let st1 := setProc st target { getProc st target with mailbox := some msg }
  let st2 := setBlock st1 target .Running
  setBlock st2 sender .Running

/-- The `send` retry loop.  `a` is the number of attempts remaining
(1002 - retries-after-this-attempt), `n` the number of yields so far;
returns (result, final state, total yields).  Started with `a = 1001`:
the loop gives up when `retries > 1000`, i.e. on the 1001st failed
attempt, after exactly 1000 yields. -/
def sendLoop (env : Nat → KState → KState) (msg : Message)
    (sender target : Nat) : Nat → Nat → KState → Nat × KState × Nat
  | 0, n, st => (USIZE_MAX, st, n)  -- not reached from fuel 1001
  | a + 1, n, st =>
    if (getProc st target).mailbox = none then
      (0, deposit st msg sender target, n)
    else
      let st1 := setBlock st sender (.WaitingSend target)
      if a = 0 then
        -- retries exceeded 1000: revert the sender to Running and fail
        (USIZE_MAX, setBlock st1 sender .Running, n)
      else
        sendLoop env msg sender target a (n + 1) (env n st1)

/-- `send(target_pid, kind, data)`.  Validation: a target at or beyond
the table, or a nonzero target whose entry has `id == 0`, is rejected
with `usize::MAX` immediately. -/
def send (env : Nat → KState → KState) (st : KState)
    (target_pid : Nat) (kind : Nat) (data : List Nat) : Nat × KState × Nat :=
  let sender_pid := st.currentPid
  if target_pid ≥ st.table.length ∨
      ((getProc st target_pid).id = 0 ∧ target_pid ≠ 0) then
    (USIZE_MAX, st, 0)
  else
    sendLoop env { sender := sender_pid, kind := kind, data := payload data }
      sender_pid target_pid 1001 0 st

/-- One iteration of the `recv` loop for the current process: `some`
(return value, message written to `out`, new state) when the mailbox
holds a message; `none` when the mailbox is empty and the loop blocks. -/
def recv (st : KState) : Option (Nat × Message × KState) :=
  match (getProc st st.currentPid).mailbox with
  | some msg =>
    some (0, msg, setBlock (setProc st st.currentPid
      { getProc st st.currentPid with mailbox := none }) st.currentPid .Running)
  | none => none

/-! ## ChilenaFS (src/src/sys/fs/chfs.rs)

The on-disk state is modelled at the record level: the inode table
(sectors 1..=8 on disk) as a 64-entry list of decoded inodes, the data
region as a map from sector number to sector contents, and the in-memory
`ChfsState` fields (`mounted`, the superblock, `next_sector`).  The
model keeps the inode table and the data region separate; this matches
the device exactly when `next_sector` stays at or beyond `DATA_START`
(so data writes never land in the superblock or inode-table sectors),
which the well-formedness hypotheses of the theorems below require.
Narrowing casts (`as u16`, `as u32`) and `u64` arithmetic are explicit. -/

def SECTOR_SIZE : Nat := 512
def MAX_INODES : Nat := 64
def DATA_START : Nat := 9
def INODE_FREE : Nat := 0
def INODE_FILE : Nat := 1
def INODE_DIR : Nat := 2

/-- One decoded 64-byte inode.  `name` is the raw 48-byte
NUL-padded field. -/
structure Inode where
  flags        : Nat
  name         : List Nat
  size         : Nat
  start_sector : Nat
  block_count  : Nat
  deriving DecidableEq, Repr

/-- `Inode::empty()`. -/
def Inode.empty : Inode :=
  { flags := INODE_FREE, name := List.replicate 48 0, size := 0,
    start_sector := 0, block_count := 0 }

/-- `Inode::name_str` — the name bytes up to the first NUL. -/
def nameStr (name : List Nat) : List Nat := name.takeWhile (· ≠ 0)

/-- `Inode::set_name` — copy at most 47 bytes, NUL-pad to 48. -/
def setName (s : List Nat) : List Nat :=
  s.take 47 ++ List.replicate (48 - min s.length 47) 0

/-- `basename` — the portion of the path after the last `/` (byte 47). -/
def basename (path : List Nat) : List Nat := (path.splitOn 47).getLastD path

/-- Mounted-filesystem state: the `ChfsState` fields plus the disk's
inode table and data region. -/
structure ChfsState where
  mounted     : Bool
  inode_count : Nat
  next_sector : Nat
  inodes      : List Inode
  data        : Nat → List Nat

/-- Index of the first element satisfying `p` (the `for i in 0..` scans
of chfs.rs). -/
def findFirstIdx (p : α → Bool) : List α → Option Nat
  | [] => none
  | a :: l => if p a then some 0 else (findFirstIdx p l).map (· + 1)

/-- `find_free_inode` — linear scan for the first inode with
`flags == INODE_FREE`. -/
def find_free_inode (st : ChfsState) : Option Nat :=
  findFirstIdx (fun ino => ino.flags == INODE_FREE) st.inodes

/-- The predicate `find_inode_by_path` scans for: a non-free inode whose
`name_str` equals the given name. -/
def inodeMatches (name : List Nat) (ino : Inode) : Bool :=
  ino.flags != INODE_FREE && nameStr ino.name == name

/-- `find_inode_by_path` — linear scan for the first non-free inode whose
`name_str` equals the path's basename. -/
def find_inode_by_path (st : ChfsState) (path : List Nat) : Option (Nat × Inode) :=
  match findFirstIdx (inodeMatches (basename path)) st.inodes with
  | some i => some (i, st.inodes.getD i Inode.empty)
  | none => none

/-- The `i`-th 512-byte sector written by `write_file`'s data loop:
`data[i*512 .. min((i+1)*512, len)]`, zero-padded to 512 bytes. -/
def sectorChunk (data : List Nat) (i : Nat) : List Nat :=
  let piece := (data.drop (i * SECTOR_SIZE)).take SECTOR_SIZE
  piece ++ List.replicate (SECTOR_SIZE - piece.length) 0

/-- Write `bc` data sectors starting at `start` (the `for i in
0..block_count` loop of `write_file`). -/
def writeSectors (disk : Nat → List Nat) (start : Nat) (data : List Nat) :
    Nat → (Nat → List Nat)
  | 0 => disk
  | n + 1 =>
    Function.update (writeSectors disk start data n) (start + n) (sectorChunk data n)

/-- The overwrite prologue of `write_file`: if a file with this name
already exists, free its inode and decrement the superblock's used
count. -/
def freeOldInode (st : ChfsState) (path : List Nat) : ChfsState :=
  match find_inode_by_path st path with
  | some (id, _) =>
    { st with inodes := st.inodes.set id Inode.empty,
              inode_count := if st.inode_count > 0 then st.inode_count - 1
                             else st.inode_count }
  | none => st

/-- `write_file(path, data)`. -/
def writeFile (st : ChfsState) (path : List Nat) (data : List Nat) :
    Except String ChfsState :=
  if !st.mounted then .error "chfs: not mounted"
  else
    let name := basename path
    if name.length > 47 then .error "chfs: filename too long (max 47)"
    else
      -- block_count = ceil(len / SECTOR_SIZE).max(1) as u16
      let bc := (max ((data.length + SECTOR_SIZE - 1) / SECTOR_SIZE) 1) % 2 ^ 16
      let st1 := freeOldInode st path
      match find_free_inode st1 with
      | none => .error "chfs: no free inodes"
      | some inode_id =>
        let start := st1.next_sector
        let st2 := { st1 with data := writeSectors st1.data start data bc }
        let ino : Inode :=
          { flags := INODE_FILE, name := setName name,
            size := data.length % 2 ^ 32, start_sector := start % 2 ^ 32,
            block_count := bc }
        let st3 := { st2 with inodes := st2.inodes.set inode_id ino }
        .ok { st3 with inode_count := (st3.inode_count + 1) % 2 ^ 32,
                       next_sector := (start + bc) % W64 }

/-- The `read_file` accumulation loop: after `n` of `block_count`
iterations, the bytes gathered so far (each sector contributes
`min(total - gathered, 512)` bytes). -/
def readBlocks (disk : Nat → List Nat) (start total : Nat) : Nat → List Nat
  | 0 => []
  | n + 1 =>
    let acc := readBlocks disk start total n
    acc ++ (disk (start + n)).take (min (total - acc.length) SECTOR_SIZE)

/-- `read_file(path)`. -/
def readFile (st : ChfsState) (path : List Nat) : Except String (List Nat) :=
  if !st.mounted then .error "chfs: not mounted"
  else
    match find_inode_by_path st path with
    | none => .error "chfs: file not found"
    | some (_, ino) =>
      if ino.flags ≠ INODE_FILE then .error "chfs: not a file"
      else .ok (readBlocks st.data ino.start_sector ino.size ino.block_count)

/-- The state `format()` leaves behind: empty superblock counts, a zeroed
inode table, `next_sector = DATA_START`.  (The data region's prior
contents are untouched by `format`.) -/
def formatState (disk : Nat → List Nat) : ChfsState :=
  { mounted := true, inode_count := 0, next_sector := DATA_START,
    inodes := List.replicate MAX_INODES Inode.empty, data := disk }

/-- A concrete freshly-formatted state over an all-zero disk. -/
def freshState : ChfsState := formatState (fun _ => List.replicate SECTOR_SIZE 0)

/-- The state after writing the 1-byte file "h" on the fresh disk. -/
def c7Out : ChfsState := (writeFile freshState [104] [7]).toOption.getD freshState

/-- The state after writing "hi" = "Halo\n" on the fresh disk. -/
def c1Out : ChfsState :=
  (writeFile freshState [104, 105] [72, 97, 108, 111, 10]).toOption.getD freshState

/-! ## Kernel transition system

The steps the kernel core can take, each one being the state effect of a
code path of the source: spawning (`Process::create`), the drop into
user mode (`exec_raw`'s `set_pid` + CR3 switch), the exit syscall
(`terminate`), the timer interrupt (`schedule`), and the IPC calls run
by the current process (with no interference during blocked yields). -/

inductive Step : KState → KState → Prop where
  | create (st : KState) (bin : List Nat) : Step st (create st bin).2
  | exec (st : KState) (pid : Nat) (h : (getProc st pid).id ≠ 0) :
      Step st (execSwitch st pid)
  | exit (st : KState) (h : (getProc st st.currentPid).id ≠ 0) :
      Step st (terminate st)
  | timer (st : KState) : Step st (schedule st).1
  | ipcSend (st : KState) (target kind : Nat) (data : List Nat) :
      Step st (send (fun _ s => s) st target kind data).2.1
  | ipcRecv (st : KState) (st' : KState) (r : Nat) (m : Message)
      (h : recv st = some (r, m, st')) : Step st st'

/-- States reachable from boot. -/
def Reachable (st : KState) : Prop :=
  Relation.ReflTransGen Step initState st

/-! ## Concrete inputs used by counterexamples and witnesses -/

/-- A minimal valid CHN image: 32 bytes, code=0, data=0, stack=default,
target_arch = 0x01, correct checksum (0x7F^0x43^0x48^0x4E^0x01 = 0x3B). -/
def goodBin : List Nat :=
  [0x7F, 0x43, 0x48, 0x4E] ++ List.replicate 24 0 ++ [0x01, 0x00, 0x00, 0x3B]

/-- A 32-byte image with valid magic and target arch whose checksum byte
(0) differs from the XOR of the first 31 bytes (0x3B). -/
def badChecksumBin : List Nat :=
  [0x7F, 0x43, 0x48, 0x4E] ++ List.replicate 24 0 ++ [0x01, 0x00, 0x00, 0x00]

/-- The state after spawning `goodBin` from the kernel and the child
calling exit: every slot is free again but `NEXT_PID` is 2. -/
def schedBugState : KState :=
  terminate (execSwitch (create initState goodBin).2 1)

/-- A kernel state with one live process (PID 1), kernel current. -/
def ipcState : KState :=
  { initState with table := initState.table.set 1 { Proc.new 0 with id := 1 } }

/-- The state just before the spawned child (PID 1) exits: used to
witness the termination theorem. -/
def termWitnessState : KState := execSwitch (create initState goodBin).2 1

/-- The state after spawning `goodBin` twice: PIDs 1 and 2 are live. -/
def twoProcState : KState := (create (create initState goodBin).2 goodBin).2

/-- Like `ipcState` but PID 1's mailbox is already occupied. -/
def ipcFullState : KState :=
  { initState with
    table := initState.table.set 1
      { Proc.new 0 with
          id := 1
          mailbox := some { sender := 0, kind := 0, data := List.replicate 64 0 } } }

/-- The process-table shape invariant behind claim C9: the table keeps
its 8 slots, every live user entry's `code_base` is one of the
`MAX_PROCS - 1` fixed windows, and no two distinct live entries share a
window base. -/
def Inv (st : KState) : Prop :=
  st.table.length = MAX_PROCS ∧
  (∀ i, 1 ≤ i → i < MAX_PROCS → (getProc st i).id ≠ 0 →
    ∃ k, k < MAX_PROCS - 1 ∧
      (getProc st i).code_base = USER_BASE + k * MAX_PROC_MEM) ∧
  (∀ i j, 1 ≤ i → i < MAX_PROCS → 1 ≤ j → j < MAX_PROCS → i ≠ j →
    (getProc st i).id ≠ 0 → (getProc st j).id ≠ 0 →
    (getProc st i).code_base ≠ (getProc st j).code_base)

/-- Two states with tables of equal length whose entries agree on `id`
and `code_base` pointwise (everything the C9 invariant reads). -/
def coreEq (st st' : KState) : Prop :=
  st'.table.length = st.table.length ∧
  ∀ i, (getProc st' i).id = (getProc st i).id ∧
    (getProc st' i).code_base = (getProc st i).code_base

end Chilena

deriving instance DecidableEq for Except


namespace Chilena

/-! # Helper lemmas -/

theorem getProc_setProc_self (st : KState) (i : Nat) (p : Proc)
    (h : i < st.table.length) : getProc (setProc st i p) i = p := by
  simp [getProc, setProc, List.getD, List.getElem?_set_self, h]

theorem getProc_setProc_ne (st : KState) (i j : Nat) (p : Proc)
    (h : i ≠ j) : getProc (setProc st i p) j = getProc st j := by
  simp [getProc, setProc, List.getD, List.getElem?_set_ne h]

theorem setProc_table_length (st : KState) (i : Nat) (p : Proc) :
    (setProc st i p).table.length = st.table.length := by
  simp [setProc]

theorem findFirstIdx_spec {α : Type _} {p : α → Bool} {l : List α} {i : Nat}
    (d : α) (h : findFirstIdx p l = some i) :
    i < l.length ∧ p (l.getD i d) = true ∧ ∀ j, j < i → p (l.getD j d) = false := by
  induction l generalizing i with
  | nil => simp [findFirstIdx] at h
  | cons a l ih =>
    by_cases hp : p a
    · simp [findFirstIdx, hp] at h
      subst h
      simpa [List.getD] using hp
    · simp [findFirstIdx, hp] at h
      obtain ⟨k, hk, rfl⟩ := h
      obtain ⟨h1, h2, h3⟩ := ih hk
      refine ⟨by simpa using h1, by simpa [List.getD] using h2, ?_⟩
      intro j hj
      cases j with
      | zero => simpa [List.getD] using hp
      | succ j =>
        have := h3 j (by omega)
        simpa [List.getD] using this

theorem findFirstIdx_none {α : Type _} {p : α → Bool} {l : List α}
    (d : α) (h : findFirstIdx p l = none) :
    ∀ j, j < l.length → p (l.getD j d) = false := by
  induction l with
  | nil => simp
  | cons a l ih =>
    by_cases hp : p a
    · simp [findFirstIdx, hp] at h
    · simp [findFirstIdx, hp] at h
      intro j hj
      cases j with
      | zero => simpa [List.getD] using hp
      | succ j =>
        have := ih h j (by simpa using hj)
        simpa [List.getD] using this

theorem getProc_setProc (st : KState) (i j : Nat) (p : Proc) :
    getProc (setProc st i p) j
      = if i = j ∧ i < st.table.length then p else getProc st j := by
  simp only [getProc, setProc, List.getD, List.getElem?_set]
  by_cases hij : i = j
  · subst hij
    by_cases hl : i < st.table.length <;> simp [hl]
    rw [List.getElem?_eq_none (l := st.table.set i p) (by simp; omega),
      List.getElem?_eq_none (Nat.le_of_not_lt hl)]
  · simp [hij]

theorem getProc_setBlock_mailbox (st : KState) (i j : Nat) (b : BlockState) :
    (getProc (setBlock st i b) j).mailbox = (getProc st j).mailbox := by
  unfold setBlock
  rw [getProc_setProc]
  split_ifs with h
  · obtain ⟨rfl, _⟩ := h
    rfl
  · rfl

theorem setBlock_table_length (st : KState) (i : Nat) (b : BlockState) :
    (setBlock st i b).table.length = st.table.length := by
  simp [setBlock, setProc]

/-- `recv` on a state whose current process has a message waiting:
take it, mark self `Running`, return it. -/
theorem recv_spec (st : KState) (msg : Message) (pid : Nat)
    (hpid : st.currentPid = pid)
    (h : (getProc st pid).mailbox = some msg) :
    recv st = some (0, msg,
      setBlock (setProc st pid
        { getProc st pid with mailbox := none }) pid .Running) := by
  subst hpid
  unfold recv
  rw [h]

theorem getProc_setBlock_ne (st : KState) (i j : Nat) (b : BlockState)
    (h : i ≠ j) : getProc (setBlock st i b) j = getProc st j := by
  unfold setBlock
  rw [getProc_setProc]
  simp [h]

theorem getProc_setBlock_self_block (st : KState) (i : Nat) (b : BlockState)
    (h : i < st.table.length) : (getProc (setBlock st i b) i).block = b := by
  unfold setBlock
  rw [getProc_setProc]
  simp [h]

theorem deposit_table_length (s0 : KState) (msg : Message) (sender target : Nat) :
    (deposit s0 msg sender target).table.length = s0.table.length := by
  simp [deposit, setBlock, setProc]

/-- After a successful deposit the target's mailbox holds the message
and both participants are `Running`. -/
theorem deposit_spec (s0 : KState) (msg : Message) (sender target : Nat)
    (hs : sender < s0.table.length) (ht : target < s0.table.length) :
    (getProc (deposit s0 msg sender target) target).mailbox = some msg ∧
    (getProc (deposit s0 msg sender target) target).block = .Running ∧
    (getProc (deposit s0 msg sender target) sender).block = .Running := by
  have hlen2 : (setBlock (setProc s0 target
      { getProc s0 target with mailbox := some msg }) target .Running).table.length
        = s0.table.length := by
    rw [setBlock_table_length, setProc_table_length]
  have h3 : (getProc (deposit s0 msg sender target) sender).block = .Running := by
    unfold deposit
    exact getProc_setBlock_self_block _ sender .Running (by rw [hlen2]; exact hs)
  have h1 : (getProc (deposit s0 msg sender target) target).mailbox = some msg := by
    unfold deposit
    rw [getProc_setBlock_mailbox, getProc_setBlock_mailbox,
      getProc_setProc_self _ _ _ ht]
  refine ⟨h1, ?_, h3⟩
  by_cases hst : sender = target
  · subst hst
    exact h3
  · unfold deposit
    rw [getProc_setBlock_ne _ _ _ _ hst]
    exact getProc_setBlock_self_block _ target .Running
      (by rw [setProc_table_length]; exact ht)

/-- Every `sendLoop` run either succeeds (returns 0) or gives up with
`usize::MAX` after yielding on each of its failed attempts but the
last. -/
theorem sendLoop_ret (env : Nat → KState → KState) (msg : Message)
    (sender target : Nat) :
    ∀ (a n : Nat) (st : KState), 1 ≤ a →
      (sendLoop env msg sender target a n st).1 = 0 ∨
      ((sendLoop env msg sender target a n st).1 = USIZE_MAX ∧
       (sendLoop env msg sender target a n st).2.2 = n + (a - 1)) := by
  intro a
  induction a with
  | zero =>
    intro n st h
    exact absurd h (by omega)
  | succ a ih =>
    intro n st _
    by_cases hm : (getProc st target).mailbox = none
    · left
      simp [sendLoop, hm]
    · by_cases ha : a = 0
      · right
        subst ha
        simp [sendLoop, hm]
      · have := ih (n + 1) (env n (setBlock st sender (.WaitingSend target))) (by omega)
        rcases this with h | ⟨h1, h2⟩
        · left
          simpa [sendLoop, hm, ha] using h
        · right
          constructor
          · simpa [sendLoop, hm, ha] using h1
          · have : (n + 1) + (a - 1) = n + (a + 1 - 1) := by omega
            rw [← this]
            simpa [sendLoop, hm, ha] using h2

/-- A `sendLoop` that returns 0 left the state produced by `deposit`
from some intermediate state of the same table length. -/
theorem sendLoop_zero (env : Nat → KState → KState) (msg : Message)
    (sender target : Nat)
    (h_env : ∀ n s, (env n s).table.length = s.table.length) :
    ∀ (a n : Nat) (st : KState),
      (sendLoop env msg sender target a n st).1 = 0 →
      ∃ s0, s0.table.length = st.table.length ∧
        (sendLoop env msg sender target a n st).2.1 = deposit s0 msg sender target := by
  intro a
  induction a with
  | zero =>
    intro n st h
    simp [sendLoop, USIZE_MAX] at h
  | succ a ih =>
    intro n st h
    by_cases hm : (getProc st target).mailbox = none
    · exact ⟨st, rfl, by simp [sendLoop, hm]⟩
    · by_cases ha : a = 0
      · subst ha
        simp [sendLoop, hm, USIZE_MAX] at h
      · have h' : (sendLoop env msg sender target a (n + 1)
            (env n (setBlock st sender (.WaitingSend target)))).1 = 0 := by
          simpa [sendLoop, hm, ha] using h
        obtain ⟨s0, hlen, heq⟩ := ih (n + 1) _ h'
        refine ⟨s0, ?_, by simpa [sendLoop, hm, ha] using heq⟩
        rw [hlen, h_env, setBlock_table_length]

/-- A `sendLoop` whose target mailbox stays occupied (initially occupied
and preserved by every environment step) fails with `usize::MAX` after
exactly `a - 1` further yields, reverting the sender to `Running`; with
an inert environment the target's entry is untouched. -/
theorem sendLoop_full (env : Nat → KState → KState) (msg : Message)
    (sender target : Nat)
    (h_env : ∀ n s, (env n s).table.length = s.table.length)
    (h_pres : ∀ n s, (getProc s target).mailbox.isSome = true →
      (getProc (env n s) target).mailbox.isSome = true) :
    ∀ (a n : Nat) (st : KState), 1 ≤ a → sender < st.table.length →
      (getProc st target).mailbox.isSome = true →
      ∃ stF, sendLoop env msg sender target a n st = (USIZE_MAX, stF, n + (a - 1)) ∧
        (getProc stF sender).block = .Running ∧
        ((∀ n' s, env n' s = s) → sender ≠ target →
          getProc stF target = getProc st target) := by
  intro a
  induction a with
  | zero =>
    intro n st h _ _
    exact absurd h (by omega)
  | succ a ih =>
    intro n st _ hs hfull
    have hm : ¬((getProc st target).mailbox = none) := by
      intro h
      rw [h] at hfull
      simp at hfull
    by_cases ha : a = 0
    · subst ha
      refine ⟨setBlock (setBlock st sender (.WaitingSend target)) sender .Running,
        by simp [sendLoop, hm], ?_, ?_⟩
      · exact getProc_setBlock_self_block _ sender .Running
          (by rwa [setBlock_table_length])
      · intro _ hne
        rw [getProc_setBlock_ne _ _ _ _ hne, getProc_setBlock_ne _ _ _ _ hne]
    · have hs1 : sender < (env n (setBlock st sender (.WaitingSend target))).table.length := by
        rw [h_env, setBlock_table_length]
        exact hs
      have hfull1 : (getProc (env n (setBlock st sender (.WaitingSend target)))
          target).mailbox.isSome = true := by
        apply h_pres
        rw [getProc_setBlock_mailbox]
        exact hfull
      obtain ⟨stF, heq, hb, hid⟩ := ih (n + 1) _ (by omega) hs1 hfull1
      refine ⟨stF, ?_, hb, ?_⟩
      · have : (n + 1) + (a - 1) = n + (a + 1 - 1) := by omega
        rw [← this]
        simpa [sendLoop, hm, ha] using heq
      · intro hidenv hne
        rw [hid hidenv hne, hidenv, getProc_setBlock_ne _ _ _ _ hne]

/-! ## Invariant machinery for C9 -/

theorem getProc_table_eq {st st' : KState} (h : st'.table = st.table) (i : Nat) :
    getProc st' i = getProc st i := by
  unfold getProc
  rw [h]

theorem inv_of_table_eq {st st' : KState} (h : st'.table = st.table)
    (hinv : Inv st) : Inv st' := by
  obtain ⟨h1, h2, h3⟩ := hinv
  refine ⟨by rw [h]; exact h1, ?_, ?_⟩
  · intro i hi1 hi2
    rw [getProc_table_eq h]
    exact h2 i hi1 hi2
  · intro i j hi1 hi2 hj1 hj2 hij
    rw [getProc_table_eq h, getProc_table_eq h]
    exact h3 i j hi1 hi2 hj1 hj2 hij

theorem inv_of_coreEq {st st' : KState} (h : coreEq st st') (hinv : Inv st) :
    Inv st' := by
  obtain ⟨hlen, hcore⟩ := h
  obtain ⟨h1, h2, h3⟩ := hinv
  refine ⟨by rw [hlen]; exact h1, ?_, ?_⟩
  · intro i hi1 hi2 hlive
    rw [(hcore i).2]
    exact h2 i hi1 hi2 (by rwa [(hcore i).1] at hlive)
  · intro i j hi1 hi2 hj1 hj2 hij hlivei hlivej
    rw [(hcore i).2, (hcore j).2]
    exact h3 i j hi1 hi2 hj1 hj2 hij
      (by rwa [(hcore i).1] at hlivei) (by rwa [(hcore j).1] at hlivej)

theorem coreEq_refl (st : KState) : coreEq st st := ⟨rfl, fun _ => ⟨rfl, rfl⟩⟩

theorem coreEq_trans {s1 s2 s3 : KState} (h12 : coreEq s1 s2)
    (h23 : coreEq s2 s3) : coreEq s1 s3 := by
  refine ⟨h23.1.trans h12.1, fun i => ⟨?_, ?_⟩⟩
  · rw [(h23.2 i).1, (h12.2 i).1]
  · rw [(h23.2 i).2, (h12.2 i).2]

/-- Replacing an entry by one with the same `id` and `code_base`
preserves the core. -/
theorem coreEq_setProc (st : KState) (i : Nat) (p : Proc)
    (hid : p.id = (getProc st i).id) (hcb : p.code_base = (getProc st i).code_base) :
    coreEq st (setProc st i p) := by
  refine ⟨setProc_table_length st i p, fun j => ?_⟩
  rw [getProc_setProc]
  split_ifs with h
  · obtain ⟨rfl, _⟩ := h
    exact ⟨hid, hcb⟩
  · exact ⟨rfl, rfl⟩

theorem coreEq_setBlock (st : KState) (i : Nat) (b : BlockState) :
    coreEq st (setBlock st i b) :=
  coreEq_setProc st i _ rfl rfl

theorem coreEq_deposit (st : KState) (msg : Message) (sender target : Nat) :
    coreEq st (deposit st msg sender target) := by
  show coreEq st (setBlock (setBlock (setProc st target
    { getProc st target with mailbox := some msg }) target .Running) sender .Running)
  exact coreEq_trans (coreEq_trans (coreEq_setProc st target
      { getProc st target with mailbox := some msg } rfl rfl)
    (coreEq_setBlock _ target .Running)) (coreEq_setBlock _ sender .Running)

/-- With an inert environment, `sendLoop` only touches mailboxes and
block states. -/
theorem sendLoop_coreEq (msg : Message) (sender target : Nat) :
    ∀ (a n : Nat) (st : KState),
      coreEq st (sendLoop (fun _ s => s) msg sender target a n st).2.1 := by
  intro a
  induction a with
  | zero =>
    intro n st
    exact coreEq_refl st
  | succ a ih =>
    intro n st
    by_cases hm : (getProc st target).mailbox = none
    · simpa [sendLoop, hm] using coreEq_deposit st msg sender target
    · by_cases ha : a = 0
      · subst ha
        simp only [sendLoop, hm, if_neg, if_pos]
        simpa [hm] using coreEq_trans
          (coreEq_setBlock st sender (.WaitingSend target))
          (coreEq_setBlock _ sender .Running)
      · have := ih (n + 1) (setBlock st sender (.WaitingSend target))
        simp only [sendLoop, hm, ha] at this ⊢
        simpa [hm, ha] using
          coreEq_trans (coreEq_setBlock st sender (.WaitingSend target)) this

theorem find_free_slot_spec {st : KState} {slot : Nat}
    (h : find_free_slot st = some slot) :
    1 ≤ slot ∧ slot < MAX_PROCS ∧ (getProc st slot).id = 0 := by
  have hmem := List.mem_of_find?_eq_some h
  have hp := List.find?_some h
  rw [List.mem_range'_1] at hmem
  refine ⟨hmem.1, by simpa [MAX_PROCS] using hmem.2, by simpa using hp⟩

theorem find_free_code_base_spec {st : KState} {c : Nat}
    (h : find_free_code_base st = some c) :
    (∃ k, k < MAX_PROCS - 1 ∧ c = USER_BASE + k * MAX_PROC_MEM) ∧
    (∀ i, 1 ≤ i → i < MAX_PROCS → (getProc st i).id ≠ 0 →
      (getProc st i).code_base ≠ c) := by
  have hmem := List.mem_of_find?_eq_some h
  have hp := List.find?_some h
  rw [List.mem_map] at hmem
  obtain ⟨k, hk, rfl⟩ := hmem
  rw [List.mem_range] at hk
  refine ⟨⟨k, by simpa [MAX_PROCS] using hk, rfl⟩, ?_⟩
  intro i hi1 hi2 hlive hceq
  simp only [Bool.not_eq_true', List.any_eq_false] at hp
  have hthis := hp i
    (by rw [List.mem_range'_1]; exact ⟨hi1, by simpa [MAX_PROCS] using hi2⟩)
  apply hthis
  rw [Bool.and_eq_true]
  constructor
  · simpa using hlive
  · simpa using hceq

/-- The table `Process::create` leaves behind: unchanged on every error
path, or the free slot overwritten with the new entry. -/
theorem create_table_cases (st : KState) (bin : List Nat) :
    (create st bin).2.table = st.table ∨
    ∃ slot c hdr, find_free_slot st = some slot ∧
      find_free_code_base st = some c ∧ chnParse bin = some hdr ∧
      (create st bin).2.table = st.table.set slot
        { id := slot, parent_id := (getProc st st.currentPid).id,
          code_base := c, stack_base := c + MAX_PROC_MEM - 4096,
          entry_point := hdr.entry_offset, ptFrame := st.framesAllocated,
          hasStackFrame := false, mailbox := none, block := .Running } := by
  unfold create
  rcases hslot : find_free_slot st with _ | slot
  · left
    rfl
  rcases hcb : find_free_code_base st with _ | c
  · left
    rfl
  rcases hhdr : chnParse bin with _ | hdr
  · left
    rfl
  dsimp only
  split_ifs <;>
    first
      | (left; rfl)
      | (right; exact ⟨slot, c, hdr, rfl, rfl, rfl, rfl⟩)

theorem inv_create (st : KState) (bin : List Nat) (hinv : Inv st) :
    Inv (create st bin).2 := by
  rcases create_table_cases st bin with h | ⟨slot, c, hdr, hslot, hcb, _, h⟩
  · exact inv_of_table_eq h hinv
  · obtain ⟨hs1, hs2, _⟩ := find_free_slot_spec hslot
    obtain ⟨⟨k0, hk0, hc⟩, hfresh⟩ := find_free_code_base_spec hcb
    obtain ⟨hlen, hform, hdisj⟩ := hinv
    have hget : ∀ i, getProc (create st bin).2 i
        = if slot = i ∧ slot < st.table.length then
            { id := slot, parent_id := (getProc st st.currentPid).id,
              code_base := c, stack_base := c + MAX_PROC_MEM - 4096,
              entry_point := hdr.entry_offset, ptFrame := st.framesAllocated,
              hasStackFrame := false, mailbox := none, block := .Running }
          else getProc st i := by
      intro i
      have : getProc (create st bin).2 i = getProc (setProc st slot
          { id := slot, parent_id := (getProc st st.currentPid).id,
            code_base := c, stack_base := c + MAX_PROC_MEM - 4096,
            entry_point := hdr.entry_offset, ptFrame := st.framesAllocated,
            hasStackFrame := false, mailbox := none, block := .Running }) i := by
        apply getProc_table_eq
        rw [h]
        rfl
      rw [this, getProc_setProc]
    have hslotlen : slot < st.table.length := by omega
    refine ⟨?_, ?_, ?_⟩
    · have : (create st bin).2.table.length = st.table.length := by
        rw [h, List.length_set]
      rw [this]
      exact hlen
    · intro i hi1 hi2 hlive
      rw [hget i] at hlive
      rw [hget i]
      by_cases hsi : slot = i ∧ slot < st.table.length
      · rw [if_pos hsi]
        exact ⟨k0, hk0, hc⟩
      · rw [if_neg hsi] at hlive ⊢
        exact hform i hi1 hi2 hlive
    · intro i j hi1 hi2 hj1 hj2 hij hlivei hlivej
      rw [hget i] at hlivei
      rw [hget j] at hlivej
      rw [hget i, hget j]
      by_cases hsi : slot = i ∧ slot < st.table.length
      · have hsj : ¬(slot = j ∧ slot < st.table.length) := by
          rintro ⟨hj, _⟩
          exact hij (hsi.1.symm.trans hj)
        rw [if_pos hsi, if_neg hsj]
        rw [if_neg hsj] at hlivej
        intro hcontra
        exact hfresh j hj1 hj2 hlivej (by rw [← hcontra])
      · by_cases hsj : slot = j ∧ slot < st.table.length
        · rw [if_neg hsi, if_pos hsj]
          rw [if_neg hsi] at hlivei
          exact hfresh i hi1 hi2 hlivei
        · rw [if_neg hsi, if_neg hsj]
          rw [if_neg hsi] at hlivei
          rw [if_neg hsj] at hlivej
          exact hdisj i j hi1 hi2 hj1 hj2 hij hlivei hlivej

theorem inv_terminate (st : KState) (hinv : Inv st) : Inv (terminate st) := by
  have htab : (terminate st).table = st.table.set st.currentPid (Proc.new st.cr3) := by
    simp [terminate, setProc]
  obtain ⟨hlen, hform, hdisj⟩ := hinv
  have hget : ∀ i, getProc (terminate st) i
      = if st.currentPid = i ∧ st.currentPid < st.table.length then Proc.new st.cr3
        else getProc st i := by
    intro i
    have : getProc (terminate st) i
        = getProc (setProc st st.currentPid (Proc.new st.cr3)) i := by
      apply getProc_table_eq
      rw [htab]
      rfl
    rw [this, getProc_setProc]
  refine ⟨by rw [htab, List.length_set]; exact hlen, ?_, ?_⟩
  · intro i hi1 hi2 hlive
    rw [hget i] at hlive
    rw [hget i]
    by_cases hsi : st.currentPid = i ∧ st.currentPid < st.table.length
    · rw [if_pos hsi] at hlive
      exact absurd rfl hlive
    · rw [if_neg hsi] at hlive ⊢
      exact hform i hi1 hi2 hlive
  · intro i j hi1 hi2 hj1 hj2 hij hlivei hlivej
    rw [hget i] at hlivei
    rw [hget j] at hlivej
    rw [hget i, hget j]
    by_cases hsi : st.currentPid = i ∧ st.currentPid < st.table.length
    · rw [if_pos hsi] at hlivei
      exact absurd rfl hlivei
    · by_cases hsj : st.currentPid = j ∧ st.currentPid < st.table.length
      · rw [if_pos hsj] at hlivej
        exact absurd rfl hlivej
      · rw [if_neg hsi] at hlivei ⊢
        rw [if_neg hsj] at hlivej ⊢
        exact hdisj i j hi1 hi2 hj1 hj2 hij hlivei hlivej

theorem inv_schedule (st : KState) (hinv : Inv st) : Inv (schedule st).1 := by
  have hsc : Inv (saveCurrent { st with tick := (st.tick + 1) % W64 }) := by
    apply inv_of_coreEq _ hinv
    refine coreEq_trans (⟨rfl, fun i => ⟨rfl, rfl⟩⟩ :
      coreEq st { st with tick := (st.tick + 1) % W64 }) ?_
    exact coreEq_setProc _ _ _ rfl rfl
  unfold schedule
  dsimp only
  split_ifs with h1 h2
  · exact inv_of_table_eq rfl hinv
  · exact inv_of_table_eq rfl hinv
  · split
    · exact inv_of_table_eq rfl hsc
    · split_ifs with h3
      · exact inv_of_table_eq rfl hsc
      · exact inv_of_table_eq rfl hsc

theorem inv_send_id (st : KState) (t k : Nat) (data : List Nat) (hinv : Inv st) :
    Inv ((send (fun _ s => s) st t k data).2.1) := by
  unfold send
  split_ifs with h
  · exact hinv
  · exact inv_of_coreEq (sendLoop_coreEq _ _ _ 1001 0 st) hinv

theorem inv_recv {st st' : KState} {r : Nat} {m : Message}
    (h : recv st = some (r, m, st')) (hinv : Inv st) : Inv st' := by
  unfold recv at h
  rcases hm : (getProc st st.currentPid).mailbox with _ | msg
  · rw [hm] at h
    exact absurd h (by simp)
  · rw [hm] at h
    simp only [Option.some.injEq, Prod.mk.injEq] at h
    obtain ⟨_, _, hst'⟩ := h
    rw [← hst']
    exact inv_of_coreEq
      (coreEq_trans (coreEq_setProc st st.currentPid
          { getProc st st.currentPid with mailbox := none } rfl rfl)
        (coreEq_setBlock _ st.currentPid .Running)) hinv

theorem inv_init : Inv initState := by
  have hget : ∀ i, getProc initState i = Proc.new 0 := by
    intro i
    simp only [getProc, initState, List.getD, List.get?_eq_getElem?,
      List.getElem?_replicate]
    split_ifs <;> rfl
  refine ⟨by simp [initState], ?_, ?_⟩
  · intro i _ _ hlive
    rw [hget] at hlive
    exact absurd rfl hlive
  · intro i j _ _ _ _ _ hlivei _
    rw [hget] at hlivei
    exact absurd rfl hlivei

/-- Every reachable kernel state satisfies the table invariant. -/
theorem reachable_inv {st : KState} (h : Reachable st) : Inv st := by
  unfold Reachable at h
  induction h with
  | refl => exact inv_init
  | tail _ hstep ih =>
    cases hstep with
    | create bin => exact inv_create _ bin ih
    | exec pid h => exact inv_of_table_eq rfl ih
    | exit h => exact inv_terminate _ ih
    | timer => exact inv_schedule _ ih
    | ipcSend target kind data => exact inv_send_id _ target kind data ih
    | ipcRecv st' r m hr => exact inv_recv hr ih

/-! ## ChilenaFS helper lemmas -/

theorem getD_set_self {α : Type _} (l : List α) (i : Nat) (v d : α)
    (h : i < l.length) : (l.set i v).getD i d = v := by
  simp [List.getD, List.getElem?_set_self, h]

theorem getD_set_ne {α : Type _} (l : List α) (i j : Nat) (v d : α)
    (h : i ≠ j) : (l.set i v).getD j d = l.getD j d := by
  simp [List.getD, List.getElem?_set_ne h]

theorem findFirstIdx_eq_some {α : Type _} {p : α → Bool} {l : List α} {i : Nat}
    (d : α) (h1 : i < l.length) (h2 : p (l.getD i d) = true)
    (h3 : ∀ j, j < i → p (l.getD j d) = false) :
    findFirstIdx p l = some i := by
  induction l generalizing i with
  | nil => simp at h1
  | cons a l ih =>
    cases i with
    | zero =>
      simp [List.getD] at h2
      simp [findFirstIdx, h2]
    | succ i =>
      have ha : p a = false := by
        have := h3 0 (by omega)
        simpa [List.getD] using this
      rw [findFirstIdx, if_neg (by simp [ha])]
      have := ih (by simpa using h1) (by simpa [List.getD] using h2)
        (fun j hj => by simpa [List.getD] using h3 (j + 1) (by omega))
      rw [this]
      rfl

theorem writeSectors_at (disk : Nat → List Nat) (start : Nat) (data : List Nat) :
    ∀ (bc i : Nat), i < bc →
      writeSectors disk start data bc (start + i) = sectorChunk data i := by
  intro bc
  induction bc with
  | zero =>
    intro i h
    omega
  | succ bc ih =>
    intro i h
    by_cases hi : i = bc
    · subst hi
      simp [writeSectors, Function.update_same]
    · rw [writeSectors, Function.update_noteq (by omega)]
      exact ih i (by omega)

theorem writeSectors_out (disk : Nat → List Nat) (start : Nat) (data : List Nat) :
    ∀ (bc s : Nat), s < start ∨ start + bc ≤ s →
      writeSectors disk start data bc s = disk s := by
  intro bc
  induction bc with
  | zero =>
    intro s _
    rfl
  | succ bc ih =>
    intro s h
    rw [writeSectors, Function.update_noteq (by omega)]
    exact ih s (by omega)

/-- The `read_file` loop recovers exactly the written bytes: if the `n`
sectors starting at `start` hold the zero-padded chunks of `data`, the
accumulated bytes after `n` iterations are `data.take (n * 512)`. -/
theorem readBlocks_data (disk : Nat → List Nat) (start : Nat) (data : List Nat) :
    ∀ n : Nat, (∀ i, i < n → disk (start + i) = sectorChunk data i) →
      readBlocks disk start data.length n = data.take (n * SECTOR_SIZE) := by
  intro n
  induction n with
  | zero =>
    intro _
    simp [readBlocks]
  | succ n ih =>
    intro h
    have hacc := ih (fun i hi => h i (by omega))
    rw [readBlocks, hacc, h n (by omega)]
    unfold sectorChunk
    have hlt : (data.take (n * SECTOR_SIZE)).length
        = min (n * SECTOR_SIZE) data.length := List.length_take _ _
    by_cases hn : n * SECTOR_SIZE ≤ data.length
    · have hacclen : (data.take (n * SECTOR_SIZE)).length = n * SECTOR_SIZE := by
        rw [hlt]
        omega
      have hpiecelen : ((data.drop (n * SECTOR_SIZE)).take SECTOR_SIZE).length
          = min SECTOR_SIZE (data.length - n * SECTOR_SIZE) := by
        rw [List.length_take, List.length_drop]
      have htake : min (data.length - (data.take (n * SECTOR_SIZE)).length) SECTOR_SIZE
          = ((data.drop (n * SECTOR_SIZE)).take SECTOR_SIZE).length := by
        rw [hacclen, hpiecelen]
        omega
      rw [htake, List.take_append_of_le_length (by omega), List.take_length]
      rw [← List.take_add]
      have harith : n * SECTOR_SIZE + SECTOR_SIZE = (n + 1) * SECTOR_SIZE := by ring
      rw [harith]
    · have hacc2 : data.take (n * SECTOR_SIZE) = data :=
        List.take_of_length_le (by omega)
      have hacc3 : data.take ((n + 1) * SECTOR_SIZE) = data :=
        List.take_of_length_le (by nlinarith [List.length_take (n * SECTOR_SIZE) data])
      rw [hacc2, hacc3]
      have : min (data.length - data.length) SECTOR_SIZE = 0 := by omega
      rw [this]
      simp

/-- A NUL-free prefix followed by at least one NUL byte is what
`name_str` recovers. -/
theorem takeWhile_ne_zero_append (s : List Nat) (h0 : ∀ b ∈ s, b ≠ 0) :
    ∀ k, 1 ≤ k → (s ++ List.replicate k 0).takeWhile (· ≠ 0) = s := by
  induction s with
  | nil =>
    intro k hk
    cases k with
    | zero => omega
    | succ m => simp [List.replicate_succ, List.takeWhile_cons]
  | cons a l ih =>
    intro k hk
    have ha : a ≠ 0 := h0 a (by simp)
    simp only [List.cons_append, List.takeWhile_cons]
    rw [if_pos (by simpa using ha), ih (fun b hb => h0 b (by simp [hb])) k hk]

/-- `set_name` then `name_str` is the identity on NUL-free names of at
most 47 bytes. -/
theorem nameStr_setName (s : List Nat) (h47 : s.length ≤ 47)
    (h0 : ∀ b ∈ s, b ≠ 0) : nameStr (setName s) = s := by
  unfold nameStr setName
  rw [List.take_of_length_le h47]
  refine takeWhile_ne_zero_append s h0 _ ?_
  rw [Nat.min_eq_left h47]
  omega

/-- `freeOldInode` only touches the inode table and the used count. -/
theorem freeOldInode_fields (st : ChfsState) (path : List Nat) :
    (freeOldInode st path).mounted = st.mounted ∧
    (freeOldInode st path).next_sector = st.next_sector ∧
    (freeOldInode st path).data = st.data ∧
    (freeOldInode st path).inodes.length = st.inodes.length := by
  unfold freeOldInode
  cases h : find_inode_by_path st path with
  | none => exact ⟨rfl, rfl, rfl, rfl⟩
  | some v => exact ⟨rfl, rfl, rfl, by simp⟩

theorem inodeMatches_empty (name : List Nat) :
    inodeMatches name Inode.empty = false := by
  simp [inodeMatches, Inode.empty, INODE_FREE]

theorem find_inode_by_path_some {st : ChfsState} {path : List Nat}
    {oid : Nat} {ino : Inode} (h : find_inode_by_path st path = some (oid, ino)) :
    oid < st.inodes.length ∧ ino = st.inodes.getD oid Inode.empty ∧
    inodeMatches (basename path) (st.inodes.getD oid Inode.empty) = true ∧
    ∀ j, j < oid → inodeMatches (basename path) (st.inodes.getD j Inode.empty) = false := by
  unfold find_inode_by_path at h
  cases hf : findFirstIdx (inodeMatches (basename path)) st.inodes with
  | none =>
    rw [hf] at h
    exact absurd h (by simp)
  | some i =>
    rw [hf] at h
    simp only [Option.some.injEq, Prod.mk.injEq] at h
    obtain ⟨rfl, rfl⟩ := h
    obtain ⟨h1, h2, h3⟩ := findFirstIdx_spec Inode.empty hf
    exact ⟨h1, rfl, h2, h3⟩

theorem find_inode_by_path_none {st : ChfsState} {path : List Nat}
    (h : find_inode_by_path st path = none) :
    ∀ j, j < st.inodes.length →
      inodeMatches (basename path) (st.inodes.getD j Inode.empty) = false := by
  unfold find_inode_by_path at h
  cases hf : findFirstIdx (inodeMatches (basename path)) st.inodes with
  | none => exact findFirstIdx_none Inode.empty hf
  | some i =>
    rw [hf] at h
    exact absurd h (by simp)

/-- The inode table after `freeOldInode`: untouched when the name was
absent, first matching inode zeroed otherwise. -/
theorem freeOldInode_inodes_cases (st : ChfsState) (path : List Nat) :
    (find_inode_by_path st path = none ∧ (freeOldInode st path).inodes = st.inodes) ∨
    (∃ oid ino, find_inode_by_path st path = some (oid, ino) ∧
      (freeOldInode st path).inodes = st.inodes.set oid Inode.empty) := by
  unfold freeOldInode
  cases h : find_inode_by_path st path with
  | none => exact Or.inl ⟨rfl, rfl⟩
  | some v => exact Or.inr ⟨v.1, v.2, rfl, rfl⟩

/-- Anatomy of a successful `write_file`: the filesystem was mounted,
the basename fits, a free inode was found in the (possibly
overwrite-freed) table, and the final state is exactly: data sectors
written at `next_sector`, the inode slot overwritten, used count
incremented and `next_sector` advanced. -/
theorem writeFile_ok {st : ChfsState} {path data : List Nat} {st' : ChfsState}
    (h : writeFile st path data = .ok st') :
    st.mounted = true ∧ (basename path).length ≤ 47 ∧
    ∃ inode_id, find_free_inode (freeOldInode st path) = some inode_id ∧
      st' = { freeOldInode st path with
              data := writeSectors (freeOldInode st path).data
                (freeOldInode st path).next_sector data
                ((max ((data.length + SECTOR_SIZE - 1) / SECTOR_SIZE) 1) % 2 ^ 16),
              inodes := (freeOldInode st path).inodes.set inode_id
                { flags := INODE_FILE, name := setName (basename path),
                  size := data.length % 2 ^ 32,
                  start_sector := (freeOldInode st path).next_sector % 2 ^ 32,
                  block_count :=
                    (max ((data.length + SECTOR_SIZE - 1) / SECTOR_SIZE) 1) % 2 ^ 16 },
              inode_count := ((freeOldInode st path).inode_count + 1) % 2 ^ 32,
              next_sector := ((freeOldInode st path).next_sector
                + (max ((data.length + SECTOR_SIZE - 1) / SECTOR_SIZE) 1) % 2 ^ 16)
                % W64 } := by
  unfold writeFile at h
  dsimp only at h
  split_ifs at h with h1 h2
  all_goals try (exfalso; exact Except.noConfusion h)
  refine ⟨by simpa using h1, by omega, ?_⟩
  cases hfi : find_free_inode (freeOldInode st path) with
  | none =>
    rw [hfi] at h
    exact Except.noConfusion h
  | some inode_id =>
    rw [hfi] at h
    simp only [Except.ok.injEq] at h
    exact ⟨inode_id, rfl, h.symm⟩

/-! # Theorems -/

/-- C5 (counterexample): the empty image is rejected (`parse` returns no
header) but no diagnostic is emitted — the length check and the magic
check return `None` silently, refuting "every rejection produces a
diagnostic". -/
theorem chn_reject_without_diagnostic :
    (chnParseLog []).1 = none ∧ (chnParseLog []).2 = [] := by decide

/-- C5 (amended): the loader accepts `bin` iff `bin` is at least 32
bytes, starts with the CHN magic, the XOR of bytes 0..=30 equals byte
31, the little-endian `target_arch` field equals 0x01, and
`32 + code_size + data_size ≤ bin.length`; a rejection is accompanied by
a diagnostic exactly when it happens at the checksum, architecture, or
size check (i.e. when the image is long enough and the magic matches) —
too-short images and magic mismatches are rejected silently. -/
theorem chn_parse_accepts_iff (bin : List Nat) (hb : ∀ b ∈ bin, b < 256) :
    ((chnParse bin).isSome ↔
      (32 ≤ bin.length ∧ bin.take 4 = CHN_MAGIC ∧
       chnChecksum bin = bin.getD 31 0 ∧ le16 bin 28 = 1 ∧
       32 + le32 bin 12 + le32 bin 16 ≤ bin.length)) ∧
    (chnParse bin = none →
      ((chnParseLog bin).2 ≠ [] ↔ (32 ≤ bin.length ∧ bin.take 4 = CHN_MAGIC))) := by
  unfold chnParse chnParseLog CHN_HEADER_SIZE
  split_ifs with h1 h2 h3
  all_goals simp_all
  split_ifs with h4 h5 <;> simp_all

/-- C5 (witness): `chn_parse_accepts_iff` applied to the concrete valid
image `goodBin`. -/
theorem chn_parse_accepts_iff_witness :
    (∀ b ∈ goodBin, b < 256) ∧
    ((chnParse goodBin).isSome ↔
      (32 ≤ goodBin.length ∧ goodBin.take 4 = CHN_MAGIC ∧
       chnChecksum goodBin = goodBin.getD 31 0 ∧ le16 goodBin 28 = 1 ∧
       32 + le32 goodBin 12 + le32 goodBin 16 ≤ goodBin.length)) ∧
    (chnParse goodBin = none →
      ((chnParseLog goodBin).2 ≠ [] ↔ (32 ≤ goodBin.length ∧ goodBin.take 4 = CHN_MAGIC))) :=
  ⟨by decide, chn_parse_accepts_iff goodBin (by decide)⟩

/-- C3: spawning a 32-byte image with valid magic but wrong checksum
fails and consumes no process-table slot (table and active count
unchanged) — but, contrary to the claim, a page-table frame IS
allocated: `Process::create` calls `allocate_frame` before
`ChnHeader::parse`, and the rejection path never frees it. -/
theorem create_rejects_bad_checksum_but_leaks_frame :
    badChecksumBin.length = 32 ∧
    badChecksumBin.take 4 = CHN_MAGIC ∧
    chnChecksum badChecksumBin ≠ badChecksumBin.getD 31 0 ∧
    (create initState badChecksumBin).1 = .error () ∧
    (create initState badChecksumBin).2.table = initState.table ∧
    (create initState badChecksumBin).2.activeProcs = initState.activeProcs ∧
    (create initState badChecksumBin).2.framesAllocated
      = initState.framesAllocated + 1 := by decide

/-- C4: in the reachable state after one spawn and one exit, fewer than
2 live processes exist (every user slot is free), yet the scheduler does
NOT return early: it saves the current state, elects the freed slot 1
(whose cleared entry is `Running`), and switches page tables — because
`schedule` tests the monotonic `NEXT_PID` counter instead of the live
count. -/
theorem schedule_elects_freed_slot_after_terminate :
    Reachable schedBugState ∧
    schedBugState.table.countP (fun p => p.id != 0) = 0 ∧
    schedBugState.tick % SCHED_INTERVAL = 0 ∧
    (schedule schedBugState).2
      = { early := false, saved := true, switchedTo := some 1 } := by
  refine ⟨?_, by decide, by decide, by decide⟩
  have h1 : Step initState (create initState goodBin).2 := Step.create _ _
  have h2 : Step (create initState goodBin).2
      (execSwitch (create initState goodBin).2 1) := Step.exec _ 1 (by decide)
  have h3 : Step (execSwitch (create initState goodBin).2 1) schedBugState :=
    Step.exit _ (by decide)
  exact Relation.ReflTransGen.head h1
    (Relation.ReflTransGen.head h2 (Relation.ReflTransGen.single h3))

/-- C2: if `send(t, k, b)` returns 0 (under any interference that does
not resize the process table), the target's mailbox holds exactly
`{sender = caller PID, kind = k, data = b truncated/padded to 64 bytes}`
and both sender and target are `Running`; the subsequent `recv` executed
by `t` returns that very message and leaves both `Running`. -/
theorem send_then_recv_delivers (env : Nat → KState → KState) (st : KState)
    (t k : Nat) (data : List Nat)
    (h_env : ∀ n s, (env n s).table.length = s.table.length)
    (h_cur : st.currentPid < st.table.length)
    (h0 : (send env st t k data).1 = 0) :
    ∃ st' y, send env st t k data = (0, st', y) ∧
      (getProc st' t).mailbox = some ⟨st.currentPid, k, payload data⟩ ∧
      (getProc st' t).block = .Running ∧
      (getProc st' st.currentPid).block = .Running ∧
      ∃ st'', recv (setPid st' t) = some (0, ⟨st.currentPid, k, payload data⟩, st'') ∧
        (getProc st'' t).block = .Running ∧
        (getProc st'' st.currentPid).block = .Running := by
  by_cases hv : t ≥ st.table.length ∨ ((getProc st t).id = 0 ∧ t ≠ 0)
  · exfalso
    have : (USIZE_MAX : Nat) = 0 := by simpa [send, hv] using h0
    simp [USIZE_MAX] at this
  · have ht : t < st.table.length := by
      rcases Nat.lt_or_ge t st.table.length with h | h
      · exact h
      · exact absurd (Or.inl h) hv
    have hloop : (sendLoop env ⟨st.currentPid, k, payload data⟩
        st.currentPid t 1001 0 st).1 = 0 := by simpa [send, hv] using h0
    obtain ⟨s0, hlen, heqdep⟩ :=
      sendLoop_zero env ⟨st.currentPid, k, payload data⟩ st.currentPid t h_env
        1001 0 st hloop
    have hst' : (send env st t k data).2.1
        = deposit s0 ⟨st.currentPid, k, payload data⟩ st.currentPid t := by
      simpa [send, hv] using heqdep
    have hS : send env st t k data
        = (0, (send env st t k data).2.1, (send env st t k data).2.2) := by
      rw [← h0]
    obtain ⟨hm, hbt, hbs⟩ := deposit_spec s0 ⟨st.currentPid, k, payload data⟩
      st.currentPid t (hlen ▸ h_cur) (hlen ▸ ht)
    rw [← hst'] at hm hbt hbs
    refine ⟨(send env st t k data).2.1, (send env st t k data).2.2, hS, hm, hbt, hbs, ?_⟩
    have hlen' : (send env st t k data).2.1.table.length = st.table.length := by
      rw [hst', deposit_table_length, hlen]
    have hgp : ∀ i, getProc (setPid ((send env st t k data).2.1) t) i
        = getProc ((send env st t k data).2.1) i := fun _ => rfl
    have htlen : t < (setPid ((send env st t k data).2.1) t).table.length := by
      show t < (send env st t k data).2.1.table.length
      omega
    refine ⟨_, recv_spec (setPid ((send env st t k data).2.1) t) _ t rfl hm, ?_, ?_⟩
    · exact getProc_setBlock_self_block _ _ .Running
        (by rw [setProc_table_length]; exact htlen)
    · by_cases hct : st.currentPid = t
      · rw [hct]
        exact getProc_setBlock_self_block _ _ .Running
          (by rw [setProc_table_length]; exact htlen)
      · rw [getProc_setBlock_ne _ _ _ _ (Ne.symm hct),
          getProc_setProc_ne _ _ _ _ (Ne.symm hct), hgp]
        exact hbs

/-- C2 (witness): `send_then_recv_delivers` with an inert environment at
the concrete state with live PID 1, kind 7, data "ping". -/
theorem send_then_recv_delivers_witness :
    ((∀ n s, (((fun _ s => s) : Nat → KState → KState) n s).table.length
        = s.table.length) ∧
     ipcState.currentPid < ipcState.table.length ∧
     (send (fun _ s => s) ipcState 1 7 [112, 105, 110, 103]).1 = 0) ∧
    (∃ st' y, send (fun _ s => s) ipcState 1 7 [112, 105, 110, 103] = (0, st', y) ∧
      (getProc st' 1).mailbox
        = some ⟨ipcState.currentPid, 7, payload [112, 105, 110, 103]⟩ ∧
      (getProc st' 1).block = .Running ∧
      (getProc st' ipcState.currentPid).block = .Running ∧
      ∃ st'', recv (setPid st' 1)
          = some (0, ⟨ipcState.currentPid, 7, payload [112, 105, 110, 103]⟩, st'') ∧
        (getProc st'' 1).block = .Running ∧
        (getProc st'' ipcState.currentPid).block = .Running) :=
  ⟨⟨fun _ _ => rfl, by decide, by decide⟩,
   send_then_recv_delivers (fun _ s => s) ipcState 1 7 [112, 105, 110, 103]
     (fun _ _ => rfl) (by decide) (by decide)⟩

/-- C8: a `send` to a valid target whose mailbox is occupied at every
retry (initially occupied and kept occupied by every yield's
environment step) stops after exactly 1000 yield cycles, reverts the
sender to `Running`, and returns `usize::MAX` — the same error value as
for an invalid target; with an inert environment the receiver's entry is
untouched. -/
theorem send_gives_up_after_1000_yields (env : Nat → KState → KState)
    (st : KState) (t k : Nat) (data : List Nat)
    (h_env : ∀ n s, (env n s).table.length = s.table.length)
    (h_cur : st.currentPid < st.table.length)
    (h_t : t < st.table.length)
    (h_valid : ¬((getProc st t).id = 0 ∧ t ≠ 0))
    (h_full : (getProc st t).mailbox.isSome = true)
    (h_pres : ∀ n s, (getProc s t).mailbox.isSome = true →
      (getProc (env n s) t).mailbox.isSome = true) :
    ∃ stF, send env st t k data = (USIZE_MAX, stF, 1000) ∧
      (getProc stF st.currentPid).block = .Running ∧
      ((∀ n s, env n s = s) → st.currentPid ≠ t →
        getProc stF t = getProc st t) := by
  have hcond : ¬(t ≥ st.table.length ∨ ((getProc st t).id = 0 ∧ t ≠ 0)) := by
    rintro (h | h)
    · omega
    · exact h_valid h
  obtain ⟨stF, heq, hb, hid⟩ :=
    sendLoop_full env ⟨st.currentPid, k, payload data⟩ st.currentPid t
      h_env h_pres 1001 0 st (by omega) h_cur h_full
  refine ⟨stF, ?_, hb, hid⟩
  have : (0 : Nat) + (1001 - 1) = 1000 := by norm_num
  rw [this] at heq
  simpa [send, hcond] using heq

/-- C8 (witness): `send_gives_up_after_1000_yields` with an inert
environment at the concrete state whose PID 1 mailbox is occupied. -/
theorem send_gives_up_after_1000_yields_witness :
    ((∀ n s, (((fun _ s => s) : Nat → KState → KState) n s).table.length
        = s.table.length) ∧
     ipcFullState.currentPid < ipcFullState.table.length ∧
     1 < ipcFullState.table.length ∧
     ¬((getProc ipcFullState 1).id = 0 ∧ (1 : Nat) ≠ 0) ∧
     (getProc ipcFullState 1).mailbox.isSome = true) ∧
    (∃ stF, send (fun _ s => s) ipcFullState 1 7 [1] = (USIZE_MAX, stF, 1000) ∧
      (getProc stF ipcFullState.currentPid).block = .Running ∧
      ((∀ n s, (fun _ s => s : Nat → KState → KState) n s = s) →
        ipcFullState.currentPid ≠ 1 → getProc stF 1 = getProc ipcFullState 1)) :=
  ⟨⟨fun _ _ => rfl, by decide, by decide, by decide, by decide⟩,
   send_gives_up_after_1000_yields (fun _ s => s) ipcFullState 1 7 [1]
     (fun _ _ => rfl) (by decide) (by decide) (by decide) (by decide)
     (fun _ _ h => h)⟩

/-- C10: a `send` targeting PID 0 is never rejected as an invalid
target — with slot 0's mailbox empty it returns 0 and deposits the
message there — and the immediate invalid-target rejection (error with
the state untouched and no yields) occurs for exactly the targets at or
beyond the table length or nonzero targets whose entry has `id == 0`. -/
theorem send_pid0_and_invalid_targets (env : Nat → KState → KState)
    (st : KState) (k : Nat) (data : List Nat)
    (h_len : 0 < st.table.length)
    (h_cur : st.currentPid < st.table.length)
    (h_id0 : (getProc st 0).id = 0) :
    ((getProc st 0).mailbox = none →
      send env st 0 k data
        = (0, deposit st ⟨st.currentPid, k, payload data⟩ st.currentPid 0, 0) ∧
      (getProc ((send env st 0 k data).2.1) 0).mailbox
        = some ⟨st.currentPid, k, payload data⟩) ∧
    (∀ t, send env st t k data = (USIZE_MAX, st, 0) ↔
      (st.table.length ≤ t ∨ ((getProc st t).id = 0 ∧ t ≠ 0))) := by
  have hcond0 : ¬((0 : Nat) ≥ st.table.length ∨
      ((getProc st 0).id = 0 ∧ (0 : Nat) ≠ 0)) := by
    rintro (h | ⟨_, h⟩)
    · omega
    · exact h rfl
  constructor
  · intro hmail
    have hsend : send env st 0 k data
        = (0, deposit st ⟨st.currentPid, k, payload data⟩ st.currentPid 0, 0) := by
      unfold send
      rw [if_neg hcond0, show (1001 : Nat) = 1000 + 1 from rfl]
      rw [sendLoop, if_pos hmail]
    refine ⟨hsend, ?_⟩
    rw [hsend]
    exact (deposit_spec st ⟨st.currentPid, k, payload data⟩
      st.currentPid 0 h_cur h_len).1
  · intro t
    constructor
    · intro heq
      by_contra hrej
      have hcond : ¬(t ≥ st.table.length ∨ ((getProc st t).id = 0 ∧ t ≠ 0)) := by
        rintro (h | h)
        · exact hrej (Or.inl h)
        · exact hrej (Or.inr h)
      have hsend_eq : send env st t k data
          = sendLoop env ⟨st.currentPid, k, payload data⟩ st.currentPid t 1001 0 st := by
        unfold send
        rw [if_neg hcond]
      rcases sendLoop_ret env ⟨st.currentPid, k, payload data⟩ st.currentPid t
          1001 0 st (by omega) with h | ⟨_, hy⟩
      · rw [← hsend_eq, heq] at h
        have h' : USIZE_MAX = 0 := h
        norm_num [USIZE_MAX] at h'
      · rw [← hsend_eq, heq] at hy
        have hy' : (0 : Nat) = 0 + (1001 - 1) := hy
        norm_num at hy'
    · intro hrej
      have hor : t ≥ st.table.length ∨ ((getProc st t).id = 0 ∧ t ≠ 0) := by
        rcases hrej with h | h
        · exact Or.inl h
        · exact Or.inr h
      unfold send
      rw [if_pos hor]

/-- C10 (witness): `send_pid0_and_invalid_targets` at the concrete
state with live PID 1 and kernel current. -/
theorem send_pid0_and_invalid_targets_witness :
    (0 < ipcState.table.length ∧
     ipcState.currentPid < ipcState.table.length ∧
     (getProc ipcState 0).id = 0) ∧
    (((getProc ipcState 0).mailbox = none →
      send (fun _ s => s) ipcState 0 5 [1]
        = (0, deposit ipcState ⟨ipcState.currentPid, 5, payload [1]⟩
            ipcState.currentPid 0, 0) ∧
      (getProc ((send (fun _ s => s) ipcState 0 5 [1]).2.1) 0).mailbox
        = some ⟨ipcState.currentPid, 5, payload [1]⟩) ∧
    (∀ t, send (fun _ s => s) ipcState t 5 [1] = (USIZE_MAX, ipcState, 0) ↔
      (ipcState.table.length ≤ t ∨ ((getProc ipcState t).id = 0 ∧ t ≠ 0)))) :=
  ⟨⟨by decide, by decide, by decide⟩,
   send_pid0_and_invalid_targets (fun _ s => s) ipcState 5 [1]
     (by decide) (by decide) (by decide)⟩

/-- C6: terminating the live current process `p` resets its slot to a
fresh free entry (`id = 0`, empty mailbox, `Running`) and decrements the
active-process count by exactly one.  (`ACTIVE_PROCS` is a wrapping
`fetch_sub`, so a consistent pre-state with at least one active process
below `2^64` is assumed.) -/
theorem terminate_frees_slot (st : KState) (p : Nat) (hc : st.currentPid = p)
    (hlen : p < st.table.length) (hlive : (getProc st p).id ≠ 0)
    (h1 : 1 ≤ st.activeProcs) (h2 : st.activeProcs < W64) :
    (getProc (terminate st) p).id = 0 ∧
    (getProc (terminate st) p).mailbox = none ∧
    (getProc (terminate st) p).block = .Running ∧
    (terminate st).activeProcs = st.activeProcs - 1 := by
  subst hc
  have hset : getProc (terminate st) st.currentPid = Proc.new st.cr3 := by
    simp only [terminate, getProc, setProc]
    simp [List.getD, List.getElem?_set_self, hlen]
  have hact : (terminate st).activeProcs = (st.activeProcs + (W64 - 1)) % W64 := by
    simp [terminate, setProc]
  refine ⟨by simp [hset, Proc.new], by simp [hset, Proc.new],
    by simp [hset, Proc.new], ?_⟩
  rw [hact]
  unfold W64 at h2 ⊢
  omega

/-- C6 (witness): `terminate_frees_slot` at the concrete state in which
the freshly spawned PID 1 is current. -/
theorem terminate_frees_slot_witness :
    (termWitnessState.currentPid = 1 ∧ 1 < termWitnessState.table.length ∧
     (getProc termWitnessState 1).id ≠ 0 ∧
     1 ≤ termWitnessState.activeProcs ∧ termWitnessState.activeProcs < W64) ∧
    ((getProc (terminate termWitnessState) 1).id = 0 ∧
     (getProc (terminate termWitnessState) 1).mailbox = none ∧
     (getProc (terminate termWitnessState) 1).block = .Running ∧
     (terminate termWitnessState).activeProcs = termWitnessState.activeProcs - 1) :=
  ⟨by decide, terminate_frees_slot termWitnessState 1 (by decide) (by decide)
    (by decide) (by decide) (by decide)⟩

/-- C9: in every reachable kernel state, the virtual windows
`[code_base, code_base + MAX_PROC_MEM)` of any two distinct live
process-table entries are disjoint.  The invariant is established at
boot and preserved by every step of the kernel core — creation (which
picks a fixed window claimed by no live entry), termination (which
frees the slot), the scheduler tick, exec, and the IPC calls. -/
theorem live_windows_disjoint (st : KState) (h : Reachable st) (i j : Nat)
    (hi1 : 1 ≤ i) (hi2 : i < MAX_PROCS) (hj1 : 1 ≤ j) (hj2 : j < MAX_PROCS)
    (hij : i ≠ j) (hlivei : (getProc st i).id ≠ 0)
    (hlivej : (getProc st j).id ≠ 0) :
    (getProc st i).code_base + MAX_PROC_MEM ≤ (getProc st j).code_base ∨
    (getProc st j).code_base + MAX_PROC_MEM ≤ (getProc st i).code_base := by
  obtain ⟨_, hform, hdisj⟩ := reachable_inv h
  obtain ⟨ki, hki, hcbi⟩ := hform i hi1 hi2 hlivei
  obtain ⟨kj, hkj, hcbj⟩ := hform j hj1 hj2 hlivej
  have hne := hdisj i j hi1 hi2 hj1 hj2 hij hlivei hlivej
  rw [hcbi, hcbj] at hne ⊢
  have hkne : ki ≠ kj := by
    intro hkk
    rw [hkk] at hne
    exact hne rfl
  unfold USER_BASE MAX_PROC_MEM
  unfold USER_BASE MAX_PROC_MEM at hne
  rcases Nat.lt_or_ge ki kj with hlt | hge
  · left
    nlinarith
  · right
    have : kj < ki := by omega
    nlinarith

/-- C9 (witness): `live_windows_disjoint` applied to the reachable
state with two live processes (PIDs 1 and 2). -/
theorem live_windows_disjoint_witness :
    (1 ≤ 1 ∧ 1 < MAX_PROCS ∧ 1 ≤ 2 ∧ 2 < MAX_PROCS ∧ (1 : Nat) ≠ 2 ∧
     (getProc twoProcState 1).id ≠ 0 ∧ (getProc twoProcState 2).id ≠ 0) ∧
    ((getProc twoProcState 1).code_base + MAX_PROC_MEM
        ≤ (getProc twoProcState 2).code_base ∨
     (getProc twoProcState 2).code_base + MAX_PROC_MEM
        ≤ (getProc twoProcState 1).code_base) :=
  ⟨by decide,
   live_windows_disjoint twoProcState
     (Relation.ReflTransGen.head (Step.create initState goodBin)
       (Relation.ReflTransGen.single
         (Step.create (create initState goodBin).2 goodBin)))
     1 2 (by decide) (by decide) (by decide) (by decide) (by decide)
     (by decide) (by decide)⟩

/-- C7 (counterexample): writing a 0-byte file on a fresh filesystem
occupies one data sector, not `ceil(0/512) = 0`: the written inode's
`block_count` is 1 and `next_sector` advances from 9 to 10, because
`write_file` computes `ceil(len/512).max(1)`. -/
theorem write_zero_bytes_occupies_one_sector :
    (writeFile freshState [97] []).map
      (fun st => (st.next_sector, (st.inodes.getD 0 Inode.empty).block_count))
      = Except.ok (10, 1) ∧
    (0 + SECTOR_SIZE - 1) / SECTOR_SIZE = 0 := by decide

/-- C7 (amended): every successful `write_file(name, data)` writes
exactly `max(ceil(len/512), 1)` (cast to u16) data sectors starting at
the current `next_sector` — the last sector zero-padded — leaves every
other data sector untouched, stores the inode chosen by linear scan for
the first free slot of the (possibly overwrite-freed) table, and
advances and flushes the superblock's used count and `next_sector`.  In
particular a 0-byte file occupies 1 data sector, not `ceil(0/512) = 0`. -/
theorem write_file_sector_allocation (st : ChfsState) (path data : List Nat)
    (st' : ChfsState) (h : writeFile st path data = .ok st') :
    ∃ inode_id, find_free_inode (freeOldInode st path) = some inode_id ∧
      (∀ i, i < (max ((data.length + SECTOR_SIZE - 1) / SECTOR_SIZE) 1) % 2 ^ 16 →
        st'.data (st.next_sector + i) = sectorChunk data i) ∧
      (∀ s, (s < st.next_sector ∨
          st.next_sector
            + (max ((data.length + SECTOR_SIZE - 1) / SECTOR_SIZE) 1) % 2 ^ 16 ≤ s) →
        st'.data s = st.data s) ∧
      st'.inodes = (freeOldInode st path).inodes.set inode_id
        { flags := INODE_FILE, name := setName (basename path),
          size := data.length % 2 ^ 32, start_sector := st.next_sector % 2 ^ 32,
          block_count := (max ((data.length + SECTOR_SIZE - 1) / SECTOR_SIZE) 1) % 2 ^ 16 } ∧
      st'.inode_count = ((freeOldInode st path).inode_count + 1) % 2 ^ 32 ∧
      st'.next_sector = (st.next_sector
        + (max ((data.length + SECTOR_SIZE - 1) / SECTOR_SIZE) 1) % 2 ^ 16) % W64 := by
  obtain ⟨hm, h47, id, hfree, hst'⟩ := writeFile_ok h
  obtain ⟨hm1, hns1, hd1, hlen1⟩ := freeOldInode_fields st path
  subst hst'
  refine ⟨id, hfree, ?_, ?_, ?_, ?_, ?_⟩
  · intro i hi
    show writeSectors (freeOldInode st path).data (freeOldInode st path).next_sector
      data ((max ((data.length + SECTOR_SIZE - 1) / SECTOR_SIZE) 1) % 2 ^ 16)
      (st.next_sector + i) = sectorChunk data i
    rw [← hns1]
    exact writeSectors_at _ _ _ _ i hi
  · intro s hs
    show writeSectors (freeOldInode st path).data (freeOldInode st path).next_sector
      data ((max ((data.length + SECTOR_SIZE - 1) / SECTOR_SIZE) 1) % 2 ^ 16) s
        = st.data s
    rw [writeSectors_out _ _ _ _ s (by rw [hns1]; exact hs), hd1]
  · show (freeOldInode st path).inodes.set id
      { flags := INODE_FILE, name := setName (basename path),
        size := data.length % 2 ^ 32,
        start_sector := (freeOldInode st path).next_sector % 2 ^ 32,
        block_count := (max ((data.length + SECTOR_SIZE - 1) / SECTOR_SIZE) 1) % 2 ^ 16 }
      = _
    rw [hns1]
  · rfl
  · show ((freeOldInode st path).next_sector
      + (max ((data.length + SECTOR_SIZE - 1) / SECTOR_SIZE) 1) % 2 ^ 16) % W64 = _
    rw [hns1]

/-- C7 (witness): `write_file_sector_allocation` at the concrete 1-byte
write on a fresh filesystem. -/
theorem write_file_sector_allocation_witness :
    (writeFile freshState [104] [7] = Except.ok c7Out) ∧
    (∃ inode_id, find_free_inode (freeOldInode freshState [104]) = some inode_id ∧
      (∀ i, i < (max ((([7] : List Nat).length + SECTOR_SIZE - 1) / SECTOR_SIZE) 1) % 2 ^ 16 →
        c7Out.data (freshState.next_sector + i) = sectorChunk [7] i) ∧
      (∀ s, (s < freshState.next_sector ∨
          freshState.next_sector
            + (max ((([7] : List Nat).length + SECTOR_SIZE - 1) / SECTOR_SIZE) 1) % 2 ^ 16 ≤ s) →
        c7Out.data s = freshState.data s) ∧
      c7Out.inodes = (freeOldInode freshState [104]).inodes.set inode_id
        { flags := INODE_FILE, name := setName (basename [104]),
          size := ([7] : List Nat).length % 2 ^ 32,
          start_sector := freshState.next_sector % 2 ^ 32,
          block_count := (max ((([7] : List Nat).length + SECTOR_SIZE - 1) / SECTOR_SIZE) 1) % 2 ^ 16 } ∧
      c7Out.inode_count = ((freeOldInode freshState [104]).inode_count + 1) % 2 ^ 32 ∧
      c7Out.next_sector = (freshState.next_sector
        + (max ((([7] : List Nat).length + SECTOR_SIZE - 1) / SECTOR_SIZE) 1) % 2 ^ 16) % W64) :=
  ⟨rfl, write_file_sector_allocation freshState [104] [7] c7Out rfl⟩

/-- C1 (counterexample): for the one-byte name consisting of a NUL byte,
the write succeeds but the immediately following read fails with "file
not found" instead of returning the data: the stored name is NUL-padded,
so `name_str` truncates it to the empty string and the lookup by the
original name misses. -/
theorem write_read_fails_on_nul_name :
    freshState.mounted = true ∧
    (writeFile freshState [0] [1]).isOk = true ∧
    ((writeFile freshState [0] [1]).bind (fun st => readFile st [0]))
      = Except.error "chfs: file not found" ∧
    ((writeFile freshState [0] [1]).bind (fun st => readFile st [0]))
      ≠ Except.ok [1] := by decide

/-- C1 (amended): the write/read round trip is the identity on `data`
for every mounted state and successful write, provided the name is
NUL-free (a NUL-padded on-disk name cannot represent interior NULs), at
most one existing inode carries the name (the documented FS invariant),
the data needs at most 65535 sectors (`block_count` is a u16), and
`next_sector` fits in the inode's u32 `start_sector`. -/
theorem write_then_read_roundtrip (st : ChfsState) (path data : List Nat)
    (st' : ChfsState) (h : writeFile st path data = .ok st')
    (hnul : ∀ b ∈ basename path, b ≠ 0)
    (huniq : ∀ i j, i < st.inodes.length → j < st.inodes.length →
      inodeMatches (basename path) (st.inodes.getD i Inode.empty) = true →
      inodeMatches (basename path) (st.inodes.getD j Inode.empty) = true → i = j)
    (hsz : data.length ≤ 65535 * 512)
    (hns : st.next_sector < 2 ^ 32) :
    readFile st' path = .ok data := by
  obtain ⟨hm, h47, id, hfree, hst'⟩ := writeFile_ok h
  obtain ⟨hm1, hns1, hd1, hlen1⟩ := freeOldInode_fields st path
  have hbclt : max ((data.length + SECTOR_SIZE - 1) / SECTOR_SIZE) 1 < 2 ^ 16 := by
    unfold SECTOR_SIZE
    omega
  have hbc : (max ((data.length + SECTOR_SIZE - 1) / SECTOR_SIZE) 1) % 2 ^ 16
      = max ((data.length + SECTOR_SIZE - 1) / SECTOR_SIZE) 1 := Nat.mod_eq_of_lt hbclt
  have hsz32 : data.length % 2 ^ 32 = data.length := Nat.mod_eq_of_lt (by omega)
  have hns32 : (freeOldInode st path).next_sector % 2 ^ 32
      = (freeOldInode st path).next_sector := by
    rw [hns1]
    exact Nat.mod_eq_of_lt (by omega)
  have hlen_le : data.length
      ≤ ((max ((data.length + SECTOR_SIZE - 1) / SECTOR_SIZE) 1) % 2 ^ 16)
        * SECTOR_SIZE := by
    rw [hbc]
    unfold SECTOR_SIZE
    omega
  have hfree' : findFirstIdx (fun ino => ino.flags == INODE_FREE)
      (freeOldInode st path).inodes = some id := hfree
  obtain ⟨hidlt, hidfree, hprev⟩ := findFirstIdx_spec Inode.empty hfree'
  have hnomatch : ∀ j, j < id →
      inodeMatches (basename path)
        ((freeOldInode st path).inodes.getD j Inode.empty) = false := by
    intro j hj
    rcases freeOldInode_inodes_cases st path with ⟨hfip, heq⟩ | ⟨oid, oino, hfip, heq⟩
    · rw [heq]
      refine find_inode_by_path_none hfip j ?_
      rw [← hlen1]
      omega
    · rw [heq]
      obtain ⟨holt, hoino, homatch, hofirst⟩ := find_inode_by_path_some hfip
      by_cases hjo : j = oid
      · subst hjo
        rw [getD_set_self _ _ _ _ holt]
        exact inodeMatches_empty _
      · rw [getD_set_ne _ _ _ _ _ (fun hh => hjo hh.symm)]
        by_contra hmj
        rw [Bool.not_eq_false] at hmj
        have hjlt : j < st.inodes.length := by
          rw [← hlen1]
          omega
        exact hjo (huniq j oid hjlt holt hmj homatch)
  have hmatch_new : inodeMatches (basename path)
      { flags := INODE_FILE, name := setName (basename path),
        size := data.length % 2 ^ 32,
        start_sector := (freeOldInode st path).next_sector % 2 ^ 32,
        block_count :=
          (max ((data.length + SECTOR_SIZE - 1) / SECTOR_SIZE) 1) % 2 ^ 16 }
      = true := by
    simp [inodeMatches, INODE_FILE, INODE_FREE, nameStr_setName _ h47 hnul]
  have hfind' : findFirstIdx (inodeMatches (basename path))
      ((freeOldInode st path).inodes.set id
        { flags := INODE_FILE, name := setName (basename path),
          size := data.length % 2 ^ 32,
          start_sector := (freeOldInode st path).next_sector % 2 ^ 32,
          block_count :=
            (max ((data.length + SECTOR_SIZE - 1) / SECTOR_SIZE) 1) % 2 ^ 16 })
      = some id :=
    findFirstIdx_eq_some Inode.empty (by rw [List.length_set]; exact hidlt)
      (by rw [getD_set_self _ _ _ _ hidlt]; exact hmatch_new)
      (fun j hj => by
        rw [getD_set_ne _ _ _ _ _ (by omega)]
        exact hnomatch j hj)
  have hsti : st'.inodes = (freeOldInode st path).inodes.set id
      { flags := INODE_FILE, name := setName (basename path),
        size := data.length % 2 ^ 32,
        start_sector := (freeOldInode st path).next_sector % 2 ^ 32,
        block_count :=
          (max ((data.length + SECTOR_SIZE - 1) / SECTOR_SIZE) 1) % 2 ^ 16 } := by
    rw [hst']
  have hstd : st'.data = writeSectors (freeOldInode st path).data
      (freeOldInode st path).next_sector data
      ((max ((data.length + SECTOR_SIZE - 1) / SECTOR_SIZE) 1) % 2 ^ 16) := by
    rw [hst']
  have hstm : st'.mounted = true := by
    rw [hst']
    exact hm1.trans hm
  have hfip' : find_inode_by_path st' path = some (id,
      { flags := INODE_FILE, name := setName (basename path),
        size := data.length % 2 ^ 32,
        start_sector := (freeOldInode st path).next_sector % 2 ^ 32,
        block_count :=
          (max ((data.length + SECTOR_SIZE - 1) / SECTOR_SIZE) 1) % 2 ^ 16 }) := by
    unfold find_inode_by_path
    rw [hsti, hfind']
    dsimp only
    rw [getD_set_self _ _ _ _ hidlt]
  unfold readFile
  rw [if_neg (by simp [hstm]), hfip']
  dsimp only
  rw [if_neg (by simp [INODE_FILE]), hstd]
  show Except.ok (readBlocks _ ((freeOldInode st path).next_sector % 2 ^ 32)
    (data.length % 2 ^ 32) _) = _
  rw [hns32, hsz32]
  rw [readBlocks_data _ _ _ _ (fun i hi => writeSectors_at _ _ _ _ i hi)]
  exact congrArg Except.ok (List.take_of_length_le hlen_le)

/-- C1 (witness): `write_then_read_roundtrip` at the concrete write of
"Halo\n" under the name "hi" on a fresh filesystem. -/
theorem write_then_read_roundtrip_witness :
    (writeFile freshState [104, 105] [72, 97, 108, 111, 10] = Except.ok c1Out ∧
     (∀ b ∈ basename [104, 105], b ≠ 0) ∧
     ([72, 97, 108, 111, 10] : List Nat).length ≤ 65535 * 512 ∧
     freshState.next_sector < 2 ^ 32) ∧
    readFile c1Out [104, 105] = Except.ok [72, 97, 108, 111, 10] :=
  ⟨⟨rfl, by decide, by norm_num, by decide⟩,
   write_then_read_roundtrip freshState [104, 105] [72, 97, 108, 111, 10] c1Out
     rfl (by decide)
     (fun i j hi hj hmi _ => by
       have hE : freshState.inodes.getD i Inode.empty = Inode.empty := by
         simp only [freshState, formatState, List.getD, List.get?_eq_getElem?,
           List.getElem?_replicate]
         split_ifs <;> rfl
       rw [hE, inodeMatches_empty] at hmi
       exact absurd hmi (by simp))
     (by norm_num) (by decide)⟩

end Chilena
